import Mathlib

/-!
# Verification of the omcb-bot chess client core

Shallow embedding of the client library (piece move validator, sparse board
store, move-token correlator, rate limiter, reconnect/disconnect state
machine, retry loop) together with theorems checking the natural-language
specification against it.

Coordinates are modelled as `Int`: every piece position stored by the code is
an integer (the code floors every incoming coordinate before use), so the
`Math.floor` calls on already-integer values are identities and are dropped.
Times are modelled in integer milliseconds, as returned by `Date.now()`.
-/

set_option maxHeartbeats 1000000

namespace Omcb

/-- Piece type enum, from `PieceTypes` (part_002): PAWN..PROMOTED_PAWN. -/
inductive PieceType where
  | pawn
  | knight
  | bishop
  | rook
  | queen
  | king
  | promotedPawn
  deriving DecidableEq, Repr

/-- Move type enum, from `MoveTypes`: NORMAL, CASTLE, EN_PASSANT. -/
inductive MoveType where
  | normal
  | castle
  | enPassant
  deriving DecidableEq, Repr

/-- Piece color; the code stores `_color = Number(data.isWhite)`,
so black ↔ 0 and white ↔ 1. -/
inductive PieceColor where
  | black
  | white
  deriving DecidableEq, Repr

/-- Numeric value of a color (`_color` field): `Number(isWhite)`. -/
def PieceColor.num : PieceColor → Nat
  | .black => 0
  | .white => 1

/-- A piece, from class `Piece`: integer position, `_type`, `_color`,
`moveCount`, `captureCount` and the server-assigned `id`. -/
structure Piece where
  id : Nat
  type : PieceType
  color : PieceColor
  x : Int
  y : Int
  moveCount : Nat
  captureCount : Nat
  deriving DecidableEq, Repr

/-- `Piece.maxMoveDistance = 25`. -/
def maxMoveDistance : Nat := 25

/-- `Board.distance(x1, y1, x2, y2)`: Chebyshev distance
`max(|dx|, |dy|)` (the `floor` flag is an identity on integer inputs). -/
def Board.distance (x1 y1 x2 y2 : Int) : Nat :=
  max (x2 - x1).natAbs (y2 - y1).natAbs

/-- The shared per-type switch at the end of `Piece.canMoveTo`
(lines 115-146 of the source). `dist` is the Chebyshev distance. -/
def Piece.typeSwitch (p : Piece) (dx dy : Int) (dist : Nat) : Bool :=
  match p.type with
  | .pawn =>
      let firstMove := p.moveCount < 1
      let direction : Int := if p.color.num = 0 then 1 else -1
      if dx = 0 then decide (dy = direction ∨ (firstMove ∧ dy = 2 * direction))
      else if dx.natAbs = 1 ∧ dy = direction then true
      else false
  | .knight =>
      let d1 := dx.natAbs = 2 ∧ dy.natAbs = 1
      let d2 := dx.natAbs = 1 ∧ dy.natAbs = 2
      decide (d1 ∨ d2)
  | .bishop => decide (dx.natAbs = dy.natAbs)
  | .rook => decide (dx = 0 ∨ dy = 0)
  | .queen => decide (dx = 0 ∨ dy = 0 ∨ dx.natAbs = dy.natAbs)
  | .promotedPawn => decide (dx = 0 ∨ dy = 0 ∨ dx.natAbs = dy.natAbs)
  | .king => decide (dist = 1)

/-- `Piece.canMoveTo(x, y, moveType)`, lines 89-147 of the source. -/
def Piece.canMoveTo (p : Piece) (x2 y2 : Int) (moveType : MoveType) : Bool :=
  let x1 := p.x
  let y1 := p.y
  let dist := Board.distance x1 y1 x2 y2
  if dist > maxMoveDistance then false
  else
    let dx := x2 - x1
    let dy := y2 - y1
    if dx = 0 ∧ dy = 0 then false
    else
      match moveType with
      | .castle =>
          if p.type ≠ .king then false
          else decide (dx.natAbs = 2 ∧ dy = 0)
      | .enPassant =>
          if p.type ≠ .pawn then false
          else p.typeSwitch dx dy dist
      | .normal => p.typeSwitch dx dy dist

/-! ## C1: the validator matches the documented rule table

`specMoveRule` is written from the CLAIM's words (the documented rule
table), to be compared against `Piece.canMoveTo`, which is written from the
source. -/

/-- The color's forward direction as the claim describes it (the direction
the code assigns: `_color = 0` i.e. black moves in `+1`, white in `-1`). -/
def specForward (c : PieceColor) : Int :=
  match c with
  | .black => 1
  | .white => -1

/-- Per-type legality table, from the claim's words. -/
def specTypeRule (p : Piece) (dx dy : Int) : Prop :=
  match p.type with
  | .pawn =>
      (dx = 0 ∧ dy = specForward p.color) ∨
      (dx = 0 ∧ dy = 2 * specForward p.color ∧ p.moveCount < 1) ∨
      (dx.natAbs = 1 ∧ dy = specForward p.color)
  | .knight => (dx.natAbs = 2 ∧ dy.natAbs = 1) ∨ (dx.natAbs = 1 ∧ dy.natAbs = 2)
  | .bishop => dx.natAbs = dy.natAbs
  | .rook => dx = 0 ∨ dy = 0
  | .queen => (dx = 0 ∨ dy = 0) ∨ dx.natAbs = dy.natAbs
  | .promotedPawn => (dx = 0 ∨ dy = 0) ∨ dx.natAbs = dy.natAbs
  | .king => max dx.natAbs dy.natAbs = 1

/-- The documented rule table of the claim: distance cap, zero-delta
rejection, castle and en-passant restrictions, then per-type legality. -/
def specMoveRule (p : Piece) (x2 y2 : Int) (mt : MoveType) : Prop :=
  let dx := x2 - p.x
  let dy := y2 - p.y
  max dx.natAbs dy.natAbs ≤ 25 ∧
  ¬(dx = 0 ∧ dy = 0) ∧
  match mt with
  | .castle => p.type = .king ∧ dx.natAbs = 2 ∧ dy = 0
  | .enPassant => p.type = .pawn ∧ specTypeRule p dx dy
  | .normal => specTypeRule p dx dy

/-- C1: for every piece (type, color, moveCount), origin, destination and
move-kind, `Piece.canMoveTo` returns `true` exactly when the documented
rule table holds: moves of Chebyshev distance above 25 and zero-delta moves
are rejected, castle is legal only for a king with `|dx| = 2, dy = 0`,
en-passant only for pawns (then judged by the pawn rule), and otherwise
legality follows the per-type table. -/
theorem canMoveTo_iff_specMoveRule (p : Piece) (x2 y2 : Int) (mt : MoveType) :
    p.canMoveTo x2 y2 mt = true ↔ specMoveRule p x2 y2 mt := by
  unfold Piece.canMoveTo specMoveRule Board.distance maxMoveDistance
  cases mt with
  | castle =>
      rcases p with ⟨id, ty, c, px, py, mc, cc⟩
      cases ty <;> cases c <;>
        simp [Piece.typeSwitch, specTypeRule, PieceColor.num, specForward, max_le_iff, lt_max_iff, max_eq_iff] <;>
        (first | omega | (split_ifs <;> omega))
  | enPassant =>
      rcases p with ⟨id, ty, c, px, py, mc, cc⟩
      cases ty <;> cases c <;>
        simp [Piece.typeSwitch, specTypeRule, PieceColor.num, specForward, max_le_iff, lt_max_iff, max_eq_iff] <;>
        (first | omega | (split_ifs <;> omega))
  | normal =>
      rcases p with ⟨id, ty, c, px, py, mc, cc⟩
      cases ty <;> cases c <;>
        simp [Piece.typeSwitch, specTypeRule, PieceColor.num, specForward, max_le_iff, lt_max_iff, max_eq_iff] <;>
        (first | omega | (split_ifs <;> omega))

/-! ## Association-list model of a JS `Map`

The board store (`class Board extends Map`) and the pending-move table
(`this._pendingPieceMoves = new Map()`) are JS `Map`s: insertion-ordered
key-value lists with unique keys. `set` replaces in place or appends,
`delete` removes the (unique) entry with the key. -/

section AssocMap

variable {κ ν : Type} [DecidableEq κ]

/-- JS `Map.prototype.get`: the value stored at the key. -/
def mapGet : List (κ × ν) → κ → Option ν
  | [], _ => none
  | e :: rest, k => if e.1 = k then some e.2 else mapGet rest k

/-- JS `Map.prototype.has`. -/
def mapHas (m : List (κ × ν)) (k : κ) : Bool :=
  (mapGet m k).isSome

/-- JS `Map.prototype.set`: replace in place if the key exists, else append. -/
def mapSet : List (κ × ν) → κ → ν → List (κ × ν)
  | [], k, v => [(k, v)]
  | e :: rest, k, v => if e.1 = k then (k, v) :: rest else e :: mapSet rest k v

/-- JS `Map.prototype.delete`: remove the entry with the key (keys are
unique in a JS `Map`, so removing the first occurrence is exact). -/
def mapDelete : List (κ × ν) → κ → List (κ × ν)
  | [], _ => []
  | e :: rest, k => if e.1 = k then rest else e :: mapDelete rest k

/-- Keys pairwise distinct: the invariant every JS `Map` maintains. -/
def keysDistinct (m : List (κ × ν)) : Prop :=
  m.Pairwise (fun a b => a.1 ≠ b.1)

lemma mapGet_eq_none (m : List (κ × ν)) (k : κ) (h : ∀ e ∈ m, e.1 ≠ k) :
    mapGet m k = none := by
  induction m with
  | nil => rfl
  | cons e rest ih =>
      have he : e.1 ≠ k := h e (by simp)
      simp only [mapGet, if_neg he]
      exact ih fun f hf => h f (by simp [hf])

lemma mapGet_mem {m : List (κ × ν)} {k : κ} {v : ν} (h : mapGet m k = some v) :
    (k, v) ∈ m := by
  induction m with
  | nil => simp [mapGet] at h
  | cons e rest ih =>
      by_cases he : e.1 = k
      · rw [mapGet, if_pos he] at h
        obtain ⟨k1, v1⟩ := e
        obtain rfl : k1 = k := he
        obtain rfl : v1 = v := by simpa using h
        exact List.mem_cons_self _ _
      · rw [mapGet, if_neg he] at h
        exact List.mem_cons_of_mem _ (ih h)

lemma mapGet_set_self (m : List (κ × ν)) (k : κ) (v : ν) :
    mapGet (mapSet m k v) k = some v := by
  induction m with
  | nil => simp [mapSet, mapGet]
  | cons e rest ih =>
      by_cases h : e.1 = k
      · rw [mapSet, if_pos h, mapGet, if_pos rfl]
      · rw [mapSet, if_neg h, mapGet, if_neg h]
        exact ih

lemma mapGet_set_ne (m : List (κ × ν)) (k k2 : κ) (v : ν) (h : k ≠ k2) :
    mapGet (mapSet m k v) k2 = mapGet m k2 := by
  induction m with
  | nil =>
      rw [mapSet, mapGet, mapGet, if_neg h]
      rfl
  | cons e rest ih =>
      by_cases he : e.1 = k
      · rw [mapSet, if_pos he, mapGet, if_neg h, mapGet,
          if_neg (fun hc => h (he ▸ hc))]
      · rw [mapSet, if_neg he, mapGet, mapGet]
        by_cases he2 : e.1 = k2
        · rw [if_pos he2, if_pos he2]
        · rw [if_neg he2, if_neg he2]
          exact ih

lemma mapGet_delete_self (m : List (κ × ν)) (k : κ) (hd : keysDistinct m) :
    mapGet (mapDelete m k) k = none := by
  induction m with
  | nil => rfl
  | cons e rest ih =>
      rw [keysDistinct, List.pairwise_cons] at hd
      by_cases he : e.1 = k
      · rw [mapDelete, if_pos he]
        exact mapGet_eq_none rest k fun f hf => he ▸ (hd.1 f hf).symm
      · rw [mapDelete, if_neg he, mapGet, if_neg he]
        exact ih hd.2

lemma mapGet_delete_ne (m : List (κ × ν)) (k k2 : κ) (h : k ≠ k2) :
    mapGet (mapDelete m k) k2 = mapGet m k2 := by
  induction m with
  | nil => rfl
  | cons e rest ih =>
      by_cases he : e.1 = k
      · rw [mapDelete, if_pos he, mapGet, if_neg (fun hc => h (he ▸ hc))]
      · rw [mapDelete, if_neg he, mapGet, mapGet]
        by_cases he2 : e.1 = k2
        · rw [if_pos he2, if_pos he2]
        · rw [if_neg he2, if_neg he2]
          exact ih

lemma mapDelete_sublist (m : List (κ × ν)) (k : κ) :
    (mapDelete m k).Sublist m := by
  induction m with
  | nil => simp [mapDelete]
  | cons e rest ih =>
      by_cases he : e.1 = k
      · simpa [mapDelete, he] using List.sublist_cons_self e rest
      · simpa [mapDelete, he] using ih.cons₂ e

lemma keysDistinct_delete {m : List (κ × ν)} (k : κ) (hd : keysDistinct m) :
    keysDistinct (mapDelete m k) :=
  hd.sublist (mapDelete_sublist m k)

lemma mem_mapSet {m : List (κ × ν)} {k : κ} {v : ν} {f : κ × ν}
    (hf : f ∈ mapSet m k v) : f ∈ m ∨ f = (k, v) := by
  induction m with
  | nil => simpa [mapSet] using hf
  | cons e rest ih =>
      by_cases he : e.1 = k
      · rw [mapSet, if_pos he] at hf
        rcases List.mem_cons.mp hf with h | h
        · right; exact h
        · left; exact List.mem_cons_of_mem _ h
      · rw [mapSet, if_neg he] at hf
        rcases List.mem_cons.mp hf with h | h
        · left; exact h ▸ List.mem_cons_self e rest
        · rcases ih h with h2 | h2
          · left; exact List.mem_cons_of_mem _ h2
          · right; exact h2

lemma keysDistinct_set {m : List (κ × ν)} (k : κ) (v : ν) (hd : keysDistinct m) :
    keysDistinct (mapSet m k v) := by
  induction m with
  | nil => simp [mapSet, keysDistinct]
  | cons e rest ih =>
      rw [keysDistinct, List.pairwise_cons] at hd
      by_cases he : e.1 = k
      · rw [mapSet, if_pos he, keysDistinct, List.pairwise_cons]
        refine ⟨fun f hf => ?_, hd.2⟩
        have := hd.1 f hf
        simpa [he] using this
      · rw [mapSet, if_neg he, keysDistinct, List.pairwise_cons]
        refine ⟨fun f hf => ?_, ih hd.2⟩
        rcases mem_mapSet hf with h | h
        · exact hd.1 f h
        · rw [h]
          exact he

end AssocMap

/-! ## The sparse board store (`class Board extends Map`)

Error strings follow the source, with apostrophes dropped from the text. -/

/-- `Board.boardSize = 8`. -/
def boardSize : Int := 8

/-- `Board.totalSize = boardSize * sqrt(boardCount) = 8 * 1000`. -/
def totalSize : Int := 8000

/-- `Board.minPieceCoords = 0`. -/
def minPieceCoords : Int := 0

/-- `Board.maxPieceCoords = totalSize - 1 = 7999`. -/
def maxPieceCoords : Int := totalSize - 1

/-- `Board.minCenterCoords = boardSize / 4 = 2`. -/
def minCenterCoords : Int := boardSize / 4

/-- `Board.maxCenterCoords = totalSize - boardSize / 2 + 1 = 7997`. -/
def maxCenterCoords : Int := totalSize - boardSize / 2 + 1

/-- The board: viewport center, viewport bounds (`leftX`/`topY`/`rightX`/
`bottomY`, maintained by `_setCoords`) and the sparse coordinate→piece
store inherited from `Map` (keys are the packed integer coordinates). -/
structure Board where
  centerX : Int
  centerY : Int
  leftX : Int
  topY : Int
  rightX : Int
  bottomY : Int
  store : List ((Int × Int) × Piece)
  deriving DecidableEq, Repr

/-- Static `Board.pieceInBounds(x, y)`: global coordinate bounds. -/
def Board.pieceInBoundsGlobal (x y : Int) : Bool :=
  decide (minPieceCoords ≤ x ∧ minPieceCoords ≤ y ∧
    x ≤ maxPieceCoords ∧ y ≤ maxPieceCoords)

/-- Instance `_pieceInBounds(x, y)`: viewport bounds. -/
def Board.pieceInViewport (b : Board) (x y : Int) : Bool :=
  decide (b.leftX ≤ x ∧ b.topY ≤ y ∧ x ≤ b.rightX ∧ y ≤ b.bottomY)

/-- Instance `pieceInBounds(x, y)`: global bounds and viewport bounds. -/
def Board.pieceInBounds (b : Board) (x y : Int) : Bool :=
  Board.pieceInBoundsGlobal x y && b.pieceInViewport x y

/-- `Board.has(x, y, validate)`. -/
def Board.has (b : Board) (x y : Int) (validate : Bool) : Bool :=
  if validate && !(b.pieceInBounds x y) then false
  else mapHas b.store (x, y)

/-- `Board.get(x, y, validate)` (`null` results collapsed to `none`). -/
def Board.get (b : Board) (x y : Int) (validate : Bool) : Option Piece :=
  if validate && !(b.pieceInBounds x y) then none
  else mapGet b.store (x, y)

/-- `Board.set(x, y, piece, validate)`: no-op when validating out of
bounds, else store the piece under the coordinate key. -/
def Board.set (b : Board) (x y : Int) (piece : Piece) (validate : Bool) : Board :=
  if validate && !(b.pieceInBounds x y) then b
  else { b with store := mapSet b.store (x, y) piece }

/-- `Board.delete(x, y, validate)` (the board after the deletion). -/
def Board.delete (b : Board) (x y : Int) (validate : Bool) : Board :=
  if validate && !(b.pieceInBounds x y) then b
  else { b with store := mapDelete b.store (x, y) }

/-- `Piece.move(x, y)`: relocate and bump `moveCount`. -/
def Piece.move (p : Piece) (x y : Int) : Piece :=
  { p with x := x, y := y, moveCount := p.moveCount + 1 }

/-- `Piece.capture(x, y)`: relocate and bump `captureCount`. -/
def Piece.capture (p : Piece) (x y : Int) : Piece :=
  { p with x := x, y := y, captureCount := p.captureCount + 1 }

/-- `Board._validatePieceMove(piece, toX, toY, type)`. -/
def Board.validatePieceMove (b : Board) (p : Piece) (toX toY : Int)
    (mt : MoveType) : Except String Unit :=
  if !(b.pieceInBounds p.x p.y) then
    .error "Cant move piece that is outside of board bounds"
  else if !(b.pieceInBounds toX toY) then
    .error "Cant move piece to outside of board bounds"
  else if !(p.canMoveTo toX toY mt) then
    .error ("Cant move piece to: " ++ toString toX ++ ", " ++ toString toY)
  else .ok ()

/-- The unconditional tail of `Board.movePiece` (lines 477-486): delete the
old key, bump `captureCount` when capturing or the destination key is
occupied else `moveCount`, re-insert at the destination key. -/
def Board.movePieceCore (b : Board) (p : Piece) (toX toY : Int)
    (capture validate : Bool) : Board × Piece :=
  let b1 := b.delete p.x p.y validate
  let occupied := b1.has toX toY validate
  let p2 := if capture || occupied then p.capture toX toY else p.move toX toY
  (b1.set toX toY p2 validate, p2)

/-- `Board.movePiece(piece, toX, toY, type, capture, validate)`. -/
def Board.movePiece (b : Board) (p : Piece) (toX toY : Int) (mt : MoveType)
    (capture validate : Bool) : Except String (Board × Piece) :=
  if validate then
    match b.validatePieceMove p toX toY mt with
    | .error e => .error e
    | .ok _ => .ok (b.movePieceCore p toX toY capture validate)
  else .ok (b.movePieceCore p toX toY capture validate)

/-- `Board.getById(id)`: first piece with the id in store order. -/
def findById : List ((Int × Int) × Piece) → Nat → Option Piece
  | [], _ => none
  | e :: rest, i => if e.2.id = i then some e.2 else findById rest i

/-- `Board.getById`. -/
def Board.getById (b : Board) (id : Nat) : Option Piece :=
  findById b.store id

/-- `Board.capturePiece(piece, validate)`: remove the piece from its own
coordinate key. -/
def Board.capturePiece (b : Board) (p : Piece) (validate : Bool) : Board :=
  b.delete p.x p.y validate

/-- `Board.captureWithId(id, validate)` via `_performAction`: resolve by
id then delegate to `capturePiece`; error when validating and the id is
absent, no-op otherwise. -/
def Board.captureWithId (b : Board) (id : Nat) (validate : Bool) :
    Except String Board :=
  match b.getById id with
  | none => if validate then .error "No piece at starting position" else .ok b
  | some p => .ok (b.capturePiece p validate)

lemma validatePieceMove_ok {b : Board} {p : Piece} {toX toY : Int}
    {mt : MoveType} (h : b.validatePieceMove p toX toY mt = .ok ()) :
    b.pieceInBounds p.x p.y = true ∧ b.pieceInBounds toX toY = true ∧
      p.canMoveTo toX toY mt = true := by
  unfold Board.validatePieceMove at h
  split_ifs at h with h1 h2 h3
  · simp at h1 h2 h3
    exact ⟨h1, h2, h3⟩

lemma Board.pieceInBounds_withStore (b : Board)
    (s : List ((Int × Int) × Piece)) (x y : Int) :
    ({ b with store := s } : Board).pieceInBounds x y = b.pieceInBounds x y :=
  rfl

lemma canMoveTo_dest_ne {p : Piece} {x y : Int} {mt : MoveType}
    (h : p.canMoveTo x y mt = true) : ¬((x, y) = (p.x, p.y)) := by
  intro hc
  rw [Prod.mk.injEq] at hc
  unfold Piece.canMoveTo at h
  rw [hc.1, hc.2] at h
  simp [Board.distance, maxMoveDistance] at h

/-- C2: for a stored piece and a destination accepted by the validator,
`Board.movePiece` removes the entry at the old coordinate key, updates the
piece's stored coordinates to the destination, bumps `captureCount` when
the destination key was occupied or capture was requested (else
`moveCount`), and re-inserts the piece at the destination key. -/
theorem movePiece_spec (b b2 : Board) (p p2 : Piece) (toX toY : Int)
    (mt : MoveType) (capture : Bool)
    (hkeys : keysDistinct b.store)
    (hstored : mapGet b.store (p.x, p.y) = some p)
    (hok : b.movePiece p toX toY mt capture true = .ok (b2, p2)) :
    mapGet b2.store (p.x, p.y) = none ∧
    p2.x = toX ∧ p2.y = toY ∧
    mapGet b2.store (toX, toY) = some p2 ∧
    (if capture = true ∨ mapHas b.store (toX, toY) = true then
      p2.captureCount = p.captureCount + 1 ∧ p2.moveCount = p.moveCount
    else
      p2.moveCount = p.moveCount + 1 ∧ p2.captureCount = p.captureCount) := by
  rw [Board.movePiece, if_pos rfl] at hok
  rcases hv : b.validatePieceMove p toX toY mt with e | u
  · rw [hv] at hok
    exact absurd hok (by simp)
  · obtain ⟨hb1, hb2, hcan⟩ := validatePieceMove_ok (by rw [hv])
    rw [hv] at hok
    have hne : ¬((toX, toY) = (p.x, p.y)) := canMoveTo_dest_ne hcan
    rw [Board.movePieceCore] at hok
    simp only [Board.delete, Board.has, Board.set, Board.pieceInBounds_withStore,
      hb1, hb2, Bool.not_true, Bool.and_false, Bool.false_eq_true, if_false,
      ite_false] at hok
    rw [Except.ok.injEq, Prod.mk.injEq] at hok
    obtain ⟨hb2eq, hp2eq⟩ := hok
    subst hb2eq
    subst hp2eq
    have hocc : mapHas (mapDelete b.store (p.x, p.y)) (toX, toY) =
        mapHas b.store (toX, toY) := by
      rw [mapHas, mapHas, mapGet_delete_ne _ _ _ (fun c => hne c.symm)]
    rw [hocc]
    refine ⟨?_, ?_, ?_, ?_, ?_⟩
    · show mapGet (mapSet (mapDelete b.store (p.x, p.y)) (toX, toY) _)
        (p.x, p.y) = none
      rw [mapGet_set_ne _ _ _ _ (fun c => hne c),
        mapGet_delete_self _ _ hkeys]
    · by_cases hcap : (capture || mapHas b.store (toX, toY)) = true
      · rw [if_pos hcap]; rfl
      · rw [if_neg hcap]; rfl
    · by_cases hcap : (capture || mapHas b.store (toX, toY)) = true
      · rw [if_pos hcap]; rfl
      · rw [if_neg hcap]; rfl
    · show mapGet (mapSet (mapDelete b.store (p.x, p.y)) (toX, toY) _)
        (toX, toY) = some _
      rw [mapGet_set_self]
    · by_cases hcap : (capture || mapHas b.store (toX, toY)) = true
      · rw [if_pos hcap]
        rcases Bool.or_eq_true _ _ |>.mp hcap with h | h
        · rw [if_pos (Or.inl h)]
          exact ⟨rfl, rfl⟩
        · rw [if_pos (Or.inr h)]
          exact ⟨rfl, rfl⟩
      · rw [if_neg hcap]
        have hnor : ¬(capture = true ∨ mapHas b.store (toX, toY) = true) := by
          simpa [Bool.or_eq_true] using hcap
        rw [if_neg hnor]
        exact ⟨rfl, rfl⟩

/-- A black pawn with id 1 at (3, 3), used as a concrete test piece. -/
def testPawn : Piece :=
  { id := 1, type := .pawn, color := .black, x := 3, y := 3,
    moveCount := 0, captureCount := 0 }

/-- A concrete board: center (47, 47), the default radius-47 viewport,
holding `testPawn` at its key. -/
def testBoard : Board :=
  { centerX := 47, centerY := 47, leftX := 0, topY := 0, rightX := 94,
    bottomY := 94, store := [((3, 3), testPawn)] }

/-- `testPawn` after moving one step forward to (3, 4). -/
def movedPawn : Piece :=
  { id := 1, type := .pawn, color := .black, x := 3, y := 4,
    moveCount := 1, captureCount := 0 }

/-- `testBoard` after moving `testPawn` to (3, 4). -/
def movedBoard : Board :=
  { centerX := 47, centerY := 47, leftX := 0, topY := 0, rightX := 94,
    bottomY := 94, store := [((3, 4), movedPawn)] }

/-- Witness for C2: the concrete forward pawn move on `testBoard`
satisfies every hypothesis of `movePiece_spec`, and the conclusion holds. -/
theorem movePiece_spec_witness :
    mapGet movedBoard.store (testPawn.x, testPawn.y) = none ∧
    movedPawn.x = 3 ∧ movedPawn.y = 4 ∧
    mapGet movedBoard.store (3, 4) = some movedPawn ∧
    (if false = true ∨ mapHas testBoard.store (3, 4) = true then
      movedPawn.captureCount = testPawn.captureCount + 1 ∧
        movedPawn.moveCount = testPawn.moveCount
    else
      movedPawn.moveCount = testPawn.moveCount + 1 ∧
        movedPawn.captureCount = testPawn.captureCount) :=
  movePiece_spec testBoard movedBoard testPawn movedPawn 3 4 .normal false
    (by simp [testBoard, keysDistinct]) (by decide) (by rfl)

/-! ## C5: piece-id uniqueness across the board

The claim asserts that every store-mutating operation (including
`Board.set` and the `movesAndCaptures` handler, which calls
`this.board.set(x, y, piece, false)` for each incremental move) preserves
"no two distinct coordinate keys hold pieces with the same id".
`Board.set` inserts at the destination key without removing any stale
entry for the same piece id, so the invariant is NOT preserved:
setting a piece with id 1 next to `testPawn` (id 1) leaves id 1 at two
distinct keys. Deletion-based operations (`capturePiece` variants, the
`bulkCapture` handler) and `movePiece` on a stored piece do preserve it. -/

/-- No two entries of the store hold pieces with the same id. -/
def idsDistinct (m : List ((Int × Int) × Piece)) : Prop :=
  m.Pairwise (fun a b => a.2.id ≠ b.2.id)

/-- A second piece with the duplicate id 1, as the `movesAndCaptures`
handler would construct it at (4, 3) (`new Piece(x, y, data)`). -/
def dupPawn : Piece :=
  { id := 1, type := .pawn, color := .black, x := 4, y := 3,
    moveCount := 0, captureCount := 0 }

/-- Counterexample to C5: after `Board.set` (exactly as the
`movesAndCaptures` handler invokes it, `validate = false`), the two
distinct keys (3, 3) and (4, 3) hold pieces with the same id 1. -/
theorem set_breaks_id_uniqueness :
    mapGet ((testBoard.set 4 3 dupPawn false).store) (3, 3) = some testPawn ∧
    mapGet ((testBoard.set 4 3 dupPawn false).store) (4, 3) = some dupPawn ∧
    testPawn.id = dupPawn.id ∧
    ((3, 3) : Int × Int) ≠ (4, 3) := by
  refine ⟨by decide, by decide, by decide, by decide⟩

lemma mem_mapDelete {m : List ((Int × Int) × Piece)} {k : Int × Int}
    {e : (Int × Int) × Piece} (he : e ∈ mapDelete m k) : e ∈ m :=
  (mapDelete_sublist m k).mem he

lemma mem_delete_id_ne {p : Piece} (m : List ((Int × Int) × Piece))
    (k : Int × Int) (hids : idsDistinct m) (hget : mapGet m k = some p) :
    ∀ e ∈ mapDelete m k, e.2.id ≠ p.id := by
  induction m with
  | nil => simp [mapDelete]
  | cons f rest ih =>
      rw [idsDistinct, List.pairwise_cons] at hids
      by_cases hf : f.1 = k
      · rw [mapGet, if_pos hf, Option.some.injEq] at hget
        rw [mapDelete, if_pos hf]
        intro e he
        have h2 := hids.1 e he
        rw [hget] at h2
        exact fun c => h2 c.symm
      · rw [mapGet, if_neg hf] at hget
        rw [mapDelete, if_neg hf]
        intro e he
        rcases List.mem_cons.mp he with h | h
        · have hmem : (k, p) ∈ rest := mapGet_mem hget
          have h2 := hids.1 (k, p) hmem
          subst h
          exact h2
        · exact ih hids.2 hget e h

lemma idsDistinct_set_of_ne {m : List ((Int × Int) × Piece)}
    {k : Int × Int} {v : Piece} (hids : idsDistinct m)
    (hv : ∀ e ∈ m, e.2.id ≠ v.id) : idsDistinct (mapSet m k v) := by
  induction m with
  | nil => simp [mapSet, idsDistinct]
  | cons e rest ih =>
      rw [idsDistinct, List.pairwise_cons] at hids
      by_cases he : e.1 = k
      · rw [mapSet, if_pos he, idsDistinct, List.pairwise_cons]
        refine ⟨fun f hf => ?_, hids.2⟩
        have h2 := hv f (List.mem_cons_of_mem _ hf)
        exact fun c => h2 c.symm
      · rw [mapSet, if_neg he, idsDistinct, List.pairwise_cons]
        refine ⟨fun f hf => ?_, ih hids.2 fun f hf => hv f (List.mem_cons_of_mem _ hf)⟩
        rcases mem_mapSet hf with h | h
        · exact hids.1 f h
        · rw [h]
          exact hv e (List.mem_cons_self _ _)

lemma idsDistinct_delete {m : List ((Int × Int) × Piece)} (k : Int × Int)
    (hids : idsDistinct m) : idsDistinct (mapDelete m k) :=
  hids.sublist (mapDelete_sublist m k)

lemma movePiece_ok_store {b b2 : Board} {p p2 : Piece} {toX toY : Int}
    {mt : MoveType} {capture validate : Bool}
    (hok : b.movePiece p toX toY mt capture validate = .ok (b2, p2)) :
    b2.store = mapSet (mapDelete b.store (p.x, p.y)) (toX, toY) p2 ∧
      p2.id = p.id := by
  rw [Board.movePiece] at hok
  rcases validate with _ | _
  · rw [if_neg (by simp)] at hok
    have hcore := Except.ok.injEq _ _ |>.mp hok
    rw [Board.movePieceCore] at hcore
    simp only [Board.delete, Board.has, Board.set, Bool.false_and,
      Bool.false_eq_true, if_false, ite_false] at hcore
    rw [Prod.mk.injEq] at hcore
    obtain ⟨hb, hp⟩ := hcore
    subst hp
    constructor
    · rw [← hb]
    · by_cases hc :
        (capture || mapHas (mapDelete b.store (p.x, p.y)) (toX, toY)) = true
      · rw [if_pos hc]; rfl
      · rw [if_neg hc]; rfl
  · rw [if_pos rfl] at hok
    rcases hv : b.validatePieceMove p toX toY mt with e | u
    · rw [hv] at hok
      exact absurd hok (by simp)
    · obtain ⟨hb1, hb2c, hcan⟩ := validatePieceMove_ok (by rw [hv])
      rw [hv] at hok
      have hcore := Except.ok.injEq _ _ |>.mp hok
      rw [Board.movePieceCore] at hcore
      simp only [Board.delete, Board.has, Board.set,
        Board.pieceInBounds_withStore, hb1, hb2c, Bool.not_true,
        Bool.and_false, Bool.false_eq_true, if_false, ite_false] at hcore
      rw [Prod.mk.injEq] at hcore
      obtain ⟨hb, hp⟩ := hcore
      subst hp
      constructor
      · rw [← hb]
      · by_cases hc :
          (capture || mapHas (mapDelete b.store (p.x, p.y)) (toX, toY)) = true
        · rw [if_pos hc]; rfl
        · rw [if_neg hc]; rfl

/-- C5 (amended): piece-id uniqueness is preserved by `movePiece` applied
to a stored piece and by the deletion-based capture path
(`captureWithId`, as the `bulkCapture` handler drives it) — though not by
`Board.set` or the `movesAndCaptures` moves loop, per the counterexample. -/
theorem id_uniqueness_preserved :
    (∀ (b b2 : Board) (p p2 : Piece) (toX toY : Int) (mt : MoveType)
      (capture validate : Bool),
      idsDistinct b.store →
      mapGet b.store (p.x, p.y) = some p →
      b.movePiece p toX toY mt capture validate = .ok (b2, p2) →
      idsDistinct b2.store) ∧
    (∀ (b b2 : Board) (id : Nat) (validate : Bool),
      idsDistinct b.store →
      b.captureWithId id validate = .ok b2 →
      idsDistinct b2.store) := by
  constructor
  · intro b b2 p p2 toX toY mt capture validate hids hget hok
    obtain ⟨hstore, hid⟩ := movePiece_ok_store hok
    rw [hstore]
    exact idsDistinct_set_of_ne (idsDistinct_delete _ hids)
      (fun e he => hid ▸ mem_delete_id_ne b.store (p.x, p.y) hids hget e he)
  · intro b b2 id validate hids hok
    unfold Board.captureWithId at hok
    rcases hg : b.getById id with _ | p
    · rw [hg] at hok
      simp only [] at hok
      rcases validate with _ | _
      · rw [if_neg (by simp)] at hok
        rw [Except.ok.injEq] at hok
        exact hok ▸ hids
      · rw [if_pos rfl] at hok
        exact absurd hok (by simp)
    · rw [hg] at hok
      simp only [] at hok
      rw [Except.ok.injEq] at hok
      rw [← hok]
      rw [Board.capturePiece, Board.delete]
      by_cases hc : (validate && !(b.pieceInBounds p.x p.y)) = true
      · rw [if_pos hc]
        exact hids
      · rw [if_neg hc]
        exact idsDistinct_delete _ hids

/-- Witness for C5 (amended): the concrete pawn move of
`movePiece_spec_witness` and a concrete capture-by-id both preserve
id-uniqueness. -/
theorem id_uniqueness_preserved_witness :
    idsDistinct movedBoard.store ∧ idsDistinct (testBoard.delete 3 3 false).store :=
  ⟨(id_uniqueness_preserved.1 testBoard movedBoard testPawn movedPawn 3 4
      .normal false true (by simp [testBoard, idsDistinct]) (by decide)
      (by rfl)),
    (id_uniqueness_preserved.2 testBoard (testBoard.delete 3 3 false)
      1 false (by simp [testBoard, idsDistinct]) (by rfl))⟩

/-! ## C3: move-token allocation and the pending-move table

`ChessClient._getIncrMoveToken` (lines 1400-1407) resets the counter to 0
once it reaches `_maxMoveToken = 2^16 - 1` and then pre-increments.
`movePiece` records each pending entry in the `Map` keyed by the token;
`validMove`/`invalidMove`/timeout/send-failure delete one entry and
`_rejectPendingRequests` clears the table. -/

/-- `ChessClient._maxMoveToken = 2 ** 16 - 1`. -/
def maxMoveToken : Nat := 2 ^ 16 - 1

/-- `_getIncrMoveToken()`: returns (new `_moveToken` state, allocated
token); the allocated token equals the new counter value. -/
def getIncrMoveToken (moveToken : Nat) : Nat × Nat :=
  let t := if moveToken ≥ maxMoveToken then 0 else moveToken
  (t + 1, t + 1)

/-- A pending move entry (`{resolve, reject, piece, ...moveCoords,
timeout}`); the completion callbacks are identified by the timer id. -/
structure PendingMove where
  piece : Piece
  fromX : Int
  fromY : Int
  toX : Int
  toY : Int
  timeout : Nat
  deriving DecidableEq, Repr

/-- The `_moveToken` counter and `_pendingPieceMoves` table. -/
structure TokenState where
  moveToken : Nat
  pendingPieceMoves : List (Nat × PendingMove)
  deriving Repr

/-- The operations the client performs on the token counter and
pending-move table: `movePiece` allocates a token and records the entry;
`validMove`/`invalidMove`/timeout/send-failure delete one entry;
`_rejectPendingRequests` clears the table. -/
inductive TokenOp where
  | allocate (entry : PendingMove)
  | remove (token : Nat)
  | clear
  deriving Repr

/-- One operation on the token state; `allocate` returns the token. -/
def TokenState.step : TokenState → TokenOp → TokenState × Option Nat
  | s, .allocate entry =>
      let r := getIncrMoveToken s.moveToken
      ({ moveToken := r.1,
         pendingPieceMoves := mapSet s.pendingPieceMoves r.2 entry },
       some r.2)
  | s, .remove tok =>
      ({ s with pendingPieceMoves := mapDelete s.pendingPieceMoves tok },
       none)
  | s, .clear => ({ s with pendingPieceMoves := [] }, none)

/-- Initial client state: `_moveToken = 0`, empty pending table. -/
def initTokenState : TokenState :=
  { moveToken := 0, pendingPieceMoves := [] }

/-- Run a list of operations, collecting every allocated token. -/
def runTokenOps : TokenState → List TokenOp → TokenState × List Nat
  | s, [] => (s, [])
  | s, op :: rest =>
      let r := s.step op
      let r2 := runTokenOps r.1 rest
      (r2.1, r.2.toList ++ r2.2)

lemma getIncrMoveToken_range (t : Nat) :
    1 ≤ (getIncrMoveToken t).2 ∧ (getIncrMoveToken t).2 ≤ 65535 := by
  simp only [getIncrMoveToken, maxMoveToken]
  split_ifs <;> omega

lemma runTokenOps_inv (ops : List TokenOp) (s : TokenState)
    (hkeys : keysDistinct s.pendingPieceMoves) :
    (∀ t ∈ (runTokenOps s ops).2, 1 ≤ t ∧ t ≤ 65535) ∧
    keysDistinct (runTokenOps s ops).1.pendingPieceMoves := by
  induction ops generalizing s with
  | nil => exact ⟨by simp [runTokenOps], by simpa [runTokenOps] using hkeys⟩
  | cons op rest ih =>
      cases op with
      | allocate entry =>
          obtain ⟨ih1, ih2⟩ := ih
            { moveToken := (getIncrMoveToken s.moveToken).1,
              pendingPieceMoves :=
                mapSet s.pendingPieceMoves (getIncrMoveToken s.moveToken).2 entry }
            (keysDistinct_set _ _ hkeys)
          refine ⟨?_, ih2⟩
          intro t ht
          simp only [runTokenOps, TokenState.step, Option.toList,
            List.mem_append, List.mem_singleton] at ht
          rcases ht with h | h
          · subst h
            exact getIncrMoveToken_range s.moveToken
          · exact ih1 t h
      | remove tok =>
          obtain ⟨ih1, ih2⟩ := ih
            { s with pendingPieceMoves := mapDelete s.pendingPieceMoves tok }
            (keysDistinct_delete _ hkeys)
          refine ⟨?_, ih2⟩
          intro t ht
          simp only [runTokenOps, TokenState.step, Option.toList,
            List.nil_append] at ht
          exact ih1 t ht
      | clear =>
          obtain ⟨ih1, ih2⟩ := ih
            { s with pendingPieceMoves := [] } (by simp [keysDistinct])
          refine ⟨?_, ih2⟩
          intro t ht
          simp only [runTokenOps, TokenState.step, Option.toList,
            List.nil_append] at ht
          exact ih1 t ht

/-- C3: every token allocated along any operation sequence from the
initial client state lies in [1, 65535] (never 0), the pending-move table
never holds two live entries with the same token, and the allocation after
the one returning 65535 returns 1 (wrap-around). -/
theorem move_token_invariants :
    (∀ ops : List TokenOp,
      (∀ t ∈ (runTokenOps initTokenState ops).2, 1 ≤ t ∧ t ≤ 65535) ∧
      keysDistinct (runTokenOps initTokenState ops).1.pendingPieceMoves) ∧
    (∀ s : Nat, (getIncrMoveToken s).2 = 65535 →
      (getIncrMoveToken (getIncrMoveToken s).1).2 = 1) := by
  constructor
  · intro ops
    exact runTokenOps_inv ops initTokenState (by simp [initTokenState, keysDistinct])
  · intro s h
    simp only [getIncrMoveToken, maxMoveToken] at h ⊢
    split_ifs at h ⊢ <;> omega

/-- A concrete pending entry for witnesses. -/
def testPending : PendingMove :=
  { piece := testPawn, fromX := 3, fromY := 3, toX := 3, toY := 4,
    timeout := 0 }

/-- Witness for C3: the first allocated token is 1 and lies in range, and
the allocation made right after the one that returned 65535 (counter at
65534) returns 1. -/
theorem move_token_invariants_witness :
    (1 ≤ 1 ∧ 1 ≤ 65535) ∧
      (getIncrMoveToken (getIncrMoveToken 65534).1).2 = 1 :=
  ⟨(move_token_invariants.1 [TokenOp.allocate testPending]).1 1 (by decide),
    move_token_invariants.2 65534 (by decide)⟩

/-! ## The client connection state machine

State and effects of the teardown / reconnect / view-request paths
(`WsClient._handleDisconnect`, `_scheduleReconnect`, `disconnect`,
`ChessClient._rejectPendingRequests`, `moveView`). Timer handles are
modelled by numeric ids; promise settlement and timer clearing are
recorded as events. `ChessClient.maxConnections = 20` is finite, so the
`_decrement` underflow guard is active. -/

/-- A pending view entry (`{resolve, reject, timeout}`). -/
structure PendingView where
  timeout : Nat
  deriving DecidableEq, Repr

/-- Observable effects: timer clears, promise rejections (with the error
message), arming the reconnect timer, sending a view-subscribe request. -/
inductive ClientEvent where
  | clearTimer (id : Nat)
  | rejectMove (token : Nat) (msg : String)
  | rejectView (msg : String)
  | armReconnectTimer
  | sendSubscribe (centerX centerY : Int)
  deriving DecidableEq, Repr

/-- The client state read and written by these paths. `connections` is
the class-wide open-connection counter (`WsClient._connections`). -/
structure ClientState where
  connected : Bool
  destroyed : Bool
  autoReconnect : Bool
  reconnecting : Bool
  reconnectAttempts : Nat
  maxRetryCount : Nat
  connections : Nat
  board : Board
  pendingPieceMoves : List (Nat × PendingMove)
  pendingViewMove : Option PendingView
  deriving Repr

/-- The `_pendingPieceMoves` loop of `_rejectPendingRequests`: clear each
entry's timer and reject its promise with a connection-closed error. -/
def rejectMoveEvents : List (Nat × PendingMove) → List ClientEvent
  | [] => []
  | e :: rest =>
      ClientEvent.clearTimer e.2.timeout ::
        ClientEvent.rejectMove e.1 "Connection closed" ::
        rejectMoveEvents rest

/-- The `_pendingViewMove` tail of `_rejectPendingRequests`. -/
def rejectViewEvents : Option PendingView → List ClientEvent
  | none => []
  | some pv =>
      [ClientEvent.clearTimer pv.timeout,
        ClientEvent.rejectView "Connection closed"]

/-- `ChessClient._rejectPendingRequests()` (lines 1371-1387). -/
def ChessClient.rejectPendingRequests (s : ClientState) :
    ClientState × List ClientEvent :=
  ({ s with pendingPieceMoves := [], pendingViewMove := none },
    rejectMoveEvents s.pendingPieceMoves ++ rejectViewEvents s.pendingViewMove)

/-- `WsClient._decrement()`: underflow guard, then decrement. -/
def WsClient.decrement (connections : Nat) : Except String Nat :=
  if connections ≤ 0 then .error "Connection count cannot be lower than 0"
  else .ok (connections - 1)

/-- `WsClient._scheduleReconnect(wasError)` (lines 958-971): skip when
already reconnecting or destroyed; pre-increment the attempt counter and
return without arming once it exceeds `maxRetryCount`; otherwise arm the
reconnect timer (`wasError` only inflates the delay). -/
def WsClient.scheduleReconnect (s : ClientState) :
    ClientState × List ClientEvent :=
  if s.reconnecting || s.destroyed then (s, [])
  else
    let attempts := s.reconnectAttempts + 1
    if attempts > s.maxRetryCount then
      ({ s with reconnectAttempts := attempts }, [])
    else
      ({ s with reconnectAttempts := attempts }, [ClientEvent.armReconnectTimer])

/-- `WsClient._handleDisconnect(code)` (lines 973-989): mark disconnected,
decrement the class connection counter, reject all pending requests,
clear timers, tear down the socket, and schedule a reconnect when
`autoReconnect` holds (error closes are `code ≠ 1000`). -/
def WsClient.handleDisconnect (s : ClientState) (code : Nat) :
    Except String (ClientState × List ClientEvent) :=
  match WsClient.decrement s.connections with
  | .error e => .error e
  | .ok c =>
      let s1 : ClientState := { s with connected := false, connections := c }
      let r := ChessClient.rejectPendingRequests s1
      if r.1.autoReconnect then
        let r2 := WsClient.scheduleReconnect r.1
        .ok (r2.1, r.2 ++ r2.2)
      else .ok (r.1, r.2)

/-- `WsClient.disconnect()`: disable auto-reconnect, then run the
close path (`_onWebsocketClose` with the clean code 1000). -/
def WsClient.disconnect (s : ClientState) :
    Except String (ClientState × List ClientEvent) :=
  WsClient.handleDisconnect { s with autoReconnect := false } 1000

/-- An error-driven close: the `ws.on("error")`/`ws.on("close")` handlers
call `_resetReconnecting(false)` and then drive `_handleDisconnect`. -/
def WsClient.errorClose (s : ClientState) (code : Nat) :
    Except String (ClientState × List ClientEvent) :=
  WsClient.handleDisconnect { s with reconnecting := false } code

lemma mem_rejectMoveEvents (l : List (Nat × PendingMove)) :
    ∀ e ∈ l, ClientEvent.clearTimer e.2.timeout ∈ rejectMoveEvents l ∧
      ClientEvent.rejectMove e.1 "Connection closed" ∈ rejectMoveEvents l := by
  induction l with
  | nil => simp
  | cons f rest ih =>
      intro e he
      rcases List.mem_cons.mp he with h | h
      · subst h
        exact ⟨by simp [rejectMoveEvents], by simp [rejectMoveEvents]⟩
      · obtain ⟨h1, h2⟩ := ih e h
        exact ⟨by simp [rejectMoveEvents, h1], by simp [rejectMoveEvents, h2]⟩

lemma armReconnect_not_mem_rejectMoveEvents (l : List (Nat × PendingMove)) :
    ClientEvent.armReconnectTimer ∉ rejectMoveEvents l := by
  induction l with
  | nil => simp [rejectMoveEvents]
  | cons f rest ih => simp [rejectMoveEvents, ih]

lemma armReconnect_not_mem_rejectViewEvents (v : Option PendingView) :
    ClientEvent.armReconnectTimer ∉ rejectViewEvents v := by
  cases v <;> simp [rejectViewEvents]

/-- C6 (amended): from any state holding at least one open connection
slot (the counter positive — with the counter at zero `_decrement` throws
before `_rejectPendingRequests`, per the counterexample), for any number
of pending move entries and an optional pending view entry,
`disconnect()` succeeds, rejects every pending move promise and the
pending view promise with a connection-closed error, clears each entry's
timeout timer, and empties both pending tables. -/
theorem disconnect_rejects_pending (s : ClientState)
    (hconn : 1 ≤ s.connections) :
    ∃ s2 evts, WsClient.disconnect s = .ok (s2, evts) ∧
      s2.pendingPieceMoves = [] ∧
      s2.pendingViewMove = none ∧
      (∀ e ∈ s.pendingPieceMoves,
        ClientEvent.rejectMove e.1 "Connection closed" ∈ evts ∧
        ClientEvent.clearTimer e.2.timeout ∈ evts) ∧
      (∀ pv, s.pendingViewMove = some pv →
        ClientEvent.rejectView "Connection closed" ∈ evts ∧
        ClientEvent.clearTimer pv.timeout ∈ evts) := by
  have hd : ¬(({ s with autoReconnect := false } : ClientState).connections ≤ 0) := by
    show ¬ s.connections ≤ 0
    omega
  rw [WsClient.disconnect, WsClient.handleDisconnect, WsClient.decrement,
    if_neg hd]
  simp only [ChessClient.rejectPendingRequests]
  rw [if_neg (by simp)]
  refine ⟨_, _, rfl, rfl, rfl, ?_, ?_⟩
  · intro e he
    obtain ⟨h1, h2⟩ := mem_rejectMoveEvents s.pendingPieceMoves e he
    exact ⟨List.mem_append_left _ h2, List.mem_append_left _ h1⟩
  · intro pv hpv
    rw [hpv]
    exact ⟨List.mem_append_right _ (by simp [rejectViewEvents]),
      List.mem_append_right _ (by simp [rejectViewEvents])⟩

/-- A concrete client state with one pending move and one pending view. -/
def testClientState : ClientState :=
  { connected := true, destroyed := false, autoReconnect := true,
    reconnecting := false, reconnectAttempts := 0, maxRetryCount := 5,
    connections := 1, board := testBoard,
    pendingPieceMoves := [(1, testPending)],
    pendingViewMove := some { timeout := 7 } }

/-- Witness for C6: disconnecting `testClientState` rejects its pending
move and view entries and empties the tables. -/
theorem disconnect_rejects_pending_witness :
    ∃ s2 evts, WsClient.disconnect testClientState = .ok (s2, evts) ∧
      s2.pendingPieceMoves = [] ∧
      s2.pendingViewMove = none ∧
      (∀ e ∈ testClientState.pendingPieceMoves,
        ClientEvent.rejectMove e.1 "Connection closed" ∈ evts ∧
        ClientEvent.clearTimer e.2.timeout ∈ evts) ∧
      (∀ pv, testClientState.pendingViewMove = some pv →
        ClientEvent.rejectView "Connection closed" ∈ evts ∧
        ClientEvent.clearTimer pv.timeout ∈ evts) :=
  disconnect_rejects_pending testClientState (by decide)

/-- `testClientState` after the class connection counter has already been
decremented to zero (an error-driven close ran), while `movePiece` has
since registered a pending move entry and a view move is pending. -/
def zeroConnState : ClientState :=
  { testClientState with connections := 0 }

/-- Counterexample to C6 as universally quantified over client states:
with the class connection counter at zero, `disconnect()` throws from the
`_decrement` underflow guard before `_rejectPendingRequests` runs, so the
pending move and view entries present in the state are not rejected, no
timers are cleared and the tables are not emptied. -/
theorem disconnect_zero_connections_throws :
    WsClient.disconnect zeroConnState =
      .error "Connection count cannot be lower than 0" ∧
    zeroConnState.pendingPieceMoves = [(1, testPending)] ∧
    zeroConnState.pendingViewMove = some { timeout := 7 } :=
  ⟨rfl, rfl, rfl⟩

/-- C8: on an error-driven close with auto-reconnect enabled and the
client not destroyed, the attempt counter is incremented once, and the
reconnect timer is armed exactly when the incremented count is at or under
the `maxRetryCount` ceiling; once the count exceeds the ceiling no timer
is armed (and the counter keeps growing, so none is ever armed later
absent a successful reconnect, which is the only reset). -/
theorem errorClose_reconnect_policy (s : ClientState) (code : Nat)
    (hauto : s.autoReconnect = true) (hdest : s.destroyed = false)
    (hconn : 1 ≤ s.connections) :
    ∃ s2 evts, WsClient.errorClose s code = .ok (s2, evts) ∧
      s2.reconnectAttempts = s.reconnectAttempts + 1 ∧
      (s.reconnectAttempts + 1 ≤ s.maxRetryCount ↔
        ClientEvent.armReconnectTimer ∈ evts) := by
  have hdec : WsClient.decrement
      (({ s with reconnecting := false } : ClientState).connections) =
      .ok (s.connections - 1) := by
    show WsClient.decrement s.connections = _
    rw [WsClient.decrement, if_neg (by omega)]
  rw [WsClient.errorClose, WsClient.handleDisconnect, hdec]
  simp only [ChessClient.rejectPendingRequests, WsClient.scheduleReconnect,
    hauto, hdest, Bool.or_self, Bool.false_eq_true, if_false, if_true,
    ite_false, ite_true]
  by_cases hceil : s.reconnectAttempts + 1 > s.maxRetryCount
  · rw [if_pos hceil]
    refine ⟨_, _, rfl, rfl, ?_⟩
    constructor
    · intro hle
      omega
    · intro hmem
      have h1 := armReconnect_not_mem_rejectMoveEvents s.pendingPieceMoves
      have h2 := armReconnect_not_mem_rejectViewEvents s.pendingViewMove
      simp only [List.mem_append, List.not_mem_nil, or_false] at hmem
      tauto
  · rw [if_neg hceil]
    refine ⟨_, _, rfl, rfl, ?_⟩
    constructor
    · intro _
      exact List.mem_append_right _ (by simp)
    · intro _
      omega

/-- Witness for C8: from `testClientState` (0 attempts, ceiling 5) an
error close arms the reconnect timer and bumps the counter to 1. -/
theorem errorClose_reconnect_policy_witness :
    ∃ s2 evts, WsClient.errorClose testClientState 1006 = .ok (s2, evts) ∧
      s2.reconnectAttempts = testClientState.reconnectAttempts + 1 ∧
      (testClientState.reconnectAttempts + 1 ≤ testClientState.maxRetryCount ↔
        ClientEvent.armReconnectTimer ∈ evts) :=
  errorClose_reconnect_policy testClientState 1006 (by decide) (by decide)
    (by decide)

/-! ## C7 and C9: the view-move request path (`ChessClient.moveView`) -/

/-- `ChessClient.minViewDist = 12`. -/
def minViewDist : Nat := 12

/-- `Board._validateCenterCoords(x, y, "view")`: range check against
[`minCenterCoords`, `maxCenterCoords`] (integrality is inherent to the
`Int` model); the thrown message starts with the view variant text. -/
def Board.validateCenterCoords (x y : Int) : Except String Unit :=
  if x < minCenterCoords ∨ x > maxCenterCoords ∨
      y < minCenterCoords ∨ y > maxCenterCoords then
    .error "Cant move view to given coords"
  else .ok ()

/-- `ChessClient.moveView(centerX, centerY)` (lines 1135-1182): fail when
a view move is already pending, validate the center, reject too-short
moves (Chebyshev distance below `minViewDist` from the current board
center), then record the pending view entry and send the subscribe
request. -/
def ChessClient.moveView (s : ClientState) (centerX centerY : Int)
    (timerId : Nat) : Except String (ClientState × List ClientEvent) :=
  if s.pendingViewMove.isSome then .error "Already waiting for view move"
  else
    match Board.validateCenterCoords centerX centerY with
    | .error e => .error e
    | .ok _ =>
        let dist := Board.distance s.board.centerX s.board.centerY
          centerX centerY
        if dist < minViewDist then
          .error ("Move distance " ++ toString dist ++ " too short")
        else
          .ok ({ s with pendingViewMove := some { timeout := timerId } },
            [ClientEvent.sendSubscribe centerX centerY])

/-- C7: whenever a view move is already pending, a second `moveView` call
fails synchronously with the already-waiting error — before any
coordinate validation or transport interaction (no state change, no
subscribe message), so at most one view move is ever pending. -/
theorem moveView_second_pending_fails (s : ClientState)
    (centerX centerY : Int) (timerId : Nat) (pv : PendingView)
    (hpend : s.pendingViewMove = some pv) :
    ChessClient.moveView s centerX centerY timerId =
      .error "Already waiting for view move" := by
  rw [ChessClient.moveView, if_pos (by rw [hpend]; rfl)]

/-- Witness for C7: a second view move on `testClientState` (which has a
pending view entry) fails immediately. -/
theorem moveView_second_pending_fails_witness :
    ChessClient.moveView testClientState 100 100 9 =
      .error "Already waiting for view move" :=
  moveView_second_pending_fails testClientState 100 100 9
    { timeout := 7 } (by decide)

/-- C9: with no view move pending and in-range integer center
coordinates, when the Chebyshev distance from the current board center to
the destination is below `minViewDist = 12`, `moveView` fails
synchronously with the too-short error naming the distance — no request
is sent and the pending view slot stays empty. -/
theorem moveView_short_distance_fails (s : ClientState)
    (centerX centerY : Int) (timerId : Nat)
    (hpend : s.pendingViewMove = none)
    (hx1 : minCenterCoords ≤ centerX) (hx2 : centerX ≤ maxCenterCoords)
    (hy1 : minCenterCoords ≤ centerY) (hy2 : centerY ≤ maxCenterCoords)
    (hdist : Board.distance s.board.centerX s.board.centerY centerX centerY
      < minViewDist) :
    ChessClient.moveView s centerX centerY timerId =
      .error ("Move distance " ++
        toString (Board.distance s.board.centerX s.board.centerY
          centerX centerY) ++ " too short") := by
  rw [ChessClient.moveView, if_neg (by rw [hpend]; simp)]
  rw [Board.validateCenterCoords, if_neg (by push_neg; omega)]
  simp only []
  rw [if_pos hdist]

/-- A client state with no pending view move, board centered at (47, 47). -/
def testClientStateNoView : ClientState :=
  { testClientState with pendingViewMove := none }

/-- Witness for C9: moving the view from center (47, 47) to (50, 50)
(distance 3 < 12) fails with the too-short error. -/
theorem moveView_short_distance_fails_witness :
    ChessClient.moveView testClientStateNoView 50 50 9 =
      .error ("Move distance " ++
        toString (Board.distance testClientStateNoView.board.centerX
          testClientStateNoView.board.centerY 50 50) ++ " too short") :=
  moveView_short_distance_fails testClientStateNoView 50 50 9 (by decide)
    (by decide) (by decide) (by decide) (by decide) (by decide)

/-! ## C10: the `_sendWithRetry` destroyed-check typo

`_sendWithRetry` (lines 915-932) tests
`error.message.includes("destoyed")` — note the missing `r`. No error
message this code produces contains that substring, so the early-return
branch is unreachable; a destroyed client's sends keep failing with
`"Client destroyed"` and are retried until the attempt count exceeds
`maxRetryCount`, after which that error is thrown to the caller. -/

/-- `_attemptSend`'s own failure modes (after awaiting readiness and the
rate limiter): destroyed check, then connected check. -/
def WsClient.attemptSend (destroyed connected : Bool) : Except String Unit :=
  if destroyed then .error "Client destroyed"
  else if !connected then .error "Connection not open"
  else .ok ()

/-- Character-list version of `String.startsWith`. -/
def leadsWith : List Char → List Char → Bool
  | [], _ => true
  | _ :: _, [] => false
  | a :: as, b :: bs => a = b && leadsWith as bs

/-- Character-list version of JS `String.prototype.includes`. -/
def includesSub (needle : List Char) : List Char → Bool
  | [] => leadsWith needle []
  | c :: rest => leadsWith needle (c :: rest) || includesSub needle rest

/-- `error.message.includes("destoyed")` — the literal typo from the
source's retry loop. -/
def destoyedCheck (msg : String) : Bool :=
  includesSub "destoyed".toList msg.toList

/-- The fixed error-message texts this client code can produce
(apostrophes dropped, dynamic suffixes omitted). -/
def clientErrorMessages : List String :=
  ["Invalid websocket URL provided", "Client destroyed",
    "Connection not open", "Connection failed", "Connection closed",
    "Maximum connections (20) exceeded for ChessClient",
    "Connection count cannot be lower than 0", "No piece provided",
    "No piece at starting position", "Already waiting for view move",
    "View move timed out", "Move timed out: ", "Invalid move: ",
    "Invalid piece type: ", "Invalid color: ", "Invalid type value",
    "Invalid color value", "Move distance too short",
    "Cant move piece that is outside of board bounds",
    "Cant move piece to outside of board bounds", "Cant move piece to: ",
    "Invalid center coords: ", "Cant move view to: "]

/-- `_sendWithRetry(data)` when every `_attemptSend` rejects with the
same error message (as when the client is destroyed): one attempt per
iteration; on failure, return early if the message contains `"destoyed"`,
otherwise retry while `++retries` stays at or under the given remaining
retry budget, else rethrow. Returns the result and the number of attempts
made. -/
def sendWithRetryAllFail (errMsg : String) : Nat → Except String Unit × Nat
  | 0 =>
      if destoyedCheck errMsg then (.ok (), 1)
      else (.error errMsg, 1)
  | n + 1 =>
      if destoyedCheck errMsg then (.ok (), 1)
      else
        let r := sendWithRetryAllFail errMsg n
        (r.1, r.2 + 1)

/-- C10: a destroyed client's `_attemptSend` fails with
`"Client destroyed"`; the retry loop's destroyed check matches the
substring `"destoyed"`, which no error message of this code contains (so
the early-return branch never fires); hence with every attempt failing
that way, the send is retried until the attempt count exceeds
`maxRetryCount` (making `maxRetryCount + 1` attempts) and the
`"Client destroyed"` error is then thrown to the caller. -/
theorem sendWithRetry_destroyed_retries :
    (∀ connected, WsClient.attemptSend true connected =
      .error "Client destroyed") ∧
    (∀ msg ∈ clientErrorMessages, destoyedCheck msg = false) ∧
    (∀ maxRetryCount : Nat,
      sendWithRetryAllFail "Client destroyed" maxRetryCount =
        (.error "Client destroyed", maxRetryCount + 1)) := by
  refine ⟨fun connected => rfl, by decide, ?_⟩
  intro n
  induction n with
  | zero =>
      rw [sendWithRetryAllFail, if_neg (by decide)]
  | succ k ih =>
      rw [sendWithRetryAllFail, if_neg (by decide)]
      simp only [ih]

/-- Witness for C10: the message `"Client destroyed"` itself does not
contain `"destoyed"`, and with the default `maxRetryCount = 5` the send
makes 6 attempts and then throws `"Client destroyed"`. -/
theorem sendWithRetry_destroyed_retries_witness :
    destoyedCheck "Client destroyed" = false ∧
    sendWithRetryAllFail "Client destroyed" 5 =
      (.error "Client destroyed", 6) :=
  ⟨sendWithRetry_destroyed_retries.2.1 "Client destroyed" (by decide),
    sendWithRetry_destroyed_retries.2.2 5⟩

/-! ## C4: the token-bucket rate limiter (`WsClient._acquireToken`)

State: `_tokens` (a JS number: initialised to `maxRPS`, capped at
`maxRPS`, decremented by 1 per grant — so it takes fractional and even
negative values when `maxRPS` is fractional, e.g. the `maxRPS: 1.5` the
repository configures in src/index.js) and `_lastRefillTime`
(initialised to construction time). Each call computes
`elapsed = (now - last) / 1000` seconds and
`toAdd = Math.floor(elapsed * maxRPS)`; when positive it refills (capped)
and resets the clock, then consumes a token if the count is positive,
else sleeps and polls again. Times are integer milliseconds
(`Date.now()`); tokens and the rate are modelled as rationals, which the
float arithmetic realises exactly at the values used here. Each poll of
the `while` loop is one schedule entry. -/

/-- `_tokens` and `_lastRefillTime`. -/
structure RLState where
  tokens : ℚ
  last : Nat
  deriving DecidableEq, Repr

/-- One poll of `_acquireToken` at time `now`: refill (capped at `maxRPS`,
clock reset) when at least one whole token has accrued, then grant and
consume when the token count is positive (`true`) or leave the state for
the next poll (`false`). -/
def acquireStep (maxRPS : ℚ) (s : RLState) (now : Nat) : RLState × Bool :=
  let elapsed : ℚ := ((now : ℚ) - (s.last : ℚ)) / 1000
  let toAdd : ℤ := ⌊elapsed * maxRPS⌋
  let s1 : RLState :=
    if 0 < toAdd then
      { tokens := min maxRPS (s.tokens + (toAdd : ℚ)), last := now }
    else s
  if 0 < s1.tokens then ({ tokens := s1.tokens - 1, last := s1.last }, true)
  else (s1, false)

/-- Run the limiter over a schedule of poll times, recording each poll's
time and whether it granted a send. -/
def acquireRun (maxRPS : ℚ) : RLState → List Nat → List (Nat × Bool)
  | _, [] => []
  | s, t :: ts =>
      (t, (acquireStep maxRPS s t).2) ::
        acquireRun maxRPS (acquireStep maxRPS s t).1 ts

/-- Number of grants inside the rolling one-second window
[T, T + 999] of millisecond timestamps. -/
def grantsInWindow (T : Nat) (out : List (Nat × Bool)) : Nat :=
  (out.filter (fun e => e.2 && decide (T ≤ e.1) && decide (e.1 ≤ T + 999))).length

/-- Counterexample to C4, at the rate the repository actually configures
(`maxRPS: 1.5` in src/index.js): from the freshly constructed state (full
bucket of 1.5 tokens, clock at 0), two polls at 0 ms are both granted
(1.5 → 0.5 → −0.5) — 2 sends inside the rolling one-second window
[0, 999], exceeding `maxRPS = 1.5`. The bucket's burst capacity defeats
the claimed rolling-window bound. -/
theorem rate_limiter_rolling_window_violated :
    grantsInWindow 0
      (acquireRun (3 / 2 : ℚ) { tokens := 3 / 2, last := 0 } [0, 0]) = 2 ∧
    (3 / 2 : ℚ) < 2 := by
  have h1 : acquireStep (3 / 2 : ℚ) { tokens := 3 / 2, last := 0 } 0 =
      ({ tokens := 1 / 2, last := 0 }, true) := by
    simp only [acquireStep]
    norm_num
  have h2 : acquireStep (3 / 2 : ℚ) { tokens := 1 / 2, last := 0 } 0 =
      ({ tokens := -(1 / 2), last := 0 }, true) := by
    simp only [acquireStep]
    norm_num
  refine ⟨?_, by norm_num⟩
  simp only [acquireRun, h1, h2]
  rfl

/-! ### The amended bound

The bucket's burst capacity plus its continuous refill still cannot reach
`2 * maxRPS + 2` grants inside any rolling one-second window, for every
positive rational rate. The proof uses a potential function `spendQ`
bounding the grants a window can still absorb from a given limiter
state. -/

/-- Potential of a limiter state against the window [T, T + 999]: the
tokens in hand (plus 1, since the count may legitimately end below zero
but never at or below −1) plus the refill budget the window can still
accrue; a stale refill clock (a window poll would immediately refill,
capped at `maxRPS`) contributes the constant `2 * maxRPS + 1`. -/
def spendQ (R : ℚ) (T : Nat) (s : RLState) : ℚ :=
  if T + 999 < s.last then 0
  else if s.last < T then
    (if (1000 : ℚ) ≤ ((T : ℚ) - (s.last : ℚ)) * R then 2 * R + 1
     else s.tokens + 1 + (999 + ((T : ℚ) - (s.last : ℚ))) * R / 1000)
  else s.tokens + 1 + ((T : ℚ) + 999 - (s.last : ℚ)) * R / 1000

lemma spendQ_of_gt {R : ℚ} {T : Nat} {q : ℚ} {l : Nat} (h : T + 999 < l) :
    spendQ R T { tokens := q, last := l } = 0 := by
  rw [spendQ, if_pos h]

lemma spendQ_of_stale {R : ℚ} {T : Nat} {q : ℚ} {l : Nat}
    (h1 : ¬ T + 999 < l) (h2 : l < T)
    (h3 : (1000 : ℚ) ≤ ((T : ℚ) - (l : ℚ)) * R) :
    spendQ R T { tokens := q, last := l } = 2 * R + 1 := by
  rw [spendQ, if_neg h1, if_pos h2, if_pos h3]

lemma spendQ_of_fresh {R : ℚ} {T : Nat} {q : ℚ} {l : Nat}
    (h1 : ¬ T + 999 < l) (h2 : l < T)
    (h3 : ¬ (1000 : ℚ) ≤ ((T : ℚ) - (l : ℚ)) * R) :
    spendQ R T { tokens := q, last := l } =
      q + 1 + (999 + ((T : ℚ) - (l : ℚ))) * R / 1000 := by
  rw [spendQ, if_neg h1, if_pos h2, if_neg h3]

lemma spendQ_of_window {R : ℚ} {T : Nat} {q : ℚ} {l : Nat}
    (h1 : ¬ T + 999 < l) (h2 : ¬ l < T) :
    spendQ R T { tokens := q, last := l } =
      q + 1 + ((T : ℚ) + 999 - (l : ℚ)) * R / 1000 := by
  rw [spendQ, if_neg h1, if_neg h2]

lemma spendQ_nonneg (R : ℚ) (T : Nat) (s : RLState) (hR : 0 < R)
    (hneg : -1 < s.tokens) : 0 ≤ spendQ R T s := by
  rw [spendQ]
  split_ifs with h1 h2 h3
  · exact le_refl 0
  · linarith
  · have hl : (s.last : ℚ) < (T : ℚ) := by exact_mod_cast h2
    have hb : 0 ≤ (999 + ((T : ℚ) - (s.last : ℚ))) * R :=
      mul_nonneg (by linarith) (le_of_lt hR)
    linarith
  · have h4 : s.last ≤ T + 999 := by omega
    have hl : (s.last : ℚ) ≤ (T : ℚ) + 999 := by
      calc (s.last : ℚ) ≤ ((T + 999 : ℕ) : ℚ) := by exact_mod_cast h4
      _ = (T : ℚ) + 999 := by push_cast; ring
    have hb : 0 ≤ ((T : ℚ) + 999 - (s.last : ℚ)) * R :=
      mul_nonneg (by linarith) (le_of_lt hR)
    linarith

lemma spendQ_lt (R : ℚ) (T : Nat) (s : RLState) (hR : 0 < R)
    (htok : s.tokens ≤ R) : spendQ R T s < 2 * R + 2 := by
  rw [spendQ]
  split_ifs with h1 h2 h3
  · linarith
  · linarith
  · have h3q : ((T : ℚ) - (s.last : ℚ)) * R < 1000 := not_le.mp h3
    have hexp : (999 + ((T : ℚ) - (s.last : ℚ))) * R =
        999 * R + ((T : ℚ) - (s.last : ℚ)) * R := by ring
    linarith
  · have hTl : (T : ℚ) ≤ (s.last : ℚ) := by exact_mod_cast not_lt.mp h2
    have hspan : (T : ℚ) + 999 - (s.last : ℚ) ≤ 999 := by linarith
    have hmul : ((T : ℚ) + 999 - (s.last : ℚ)) * R ≤ 999 * R :=
      mul_le_mul_of_nonneg_right hspan (le_of_lt hR)
    linarith

lemma spendQ_step (R : ℚ) (T : Nat) (hR : 0 < R) (s : RLState) (now : Nat)
    (hmono : s.last ≤ now) (htok : s.tokens ≤ R) (hneg : -1 < s.tokens) :
    (acquireStep R s now).1.tokens ≤ R ∧
    (-1 : ℚ) < (acquireStep R s now).1.tokens ∧
    (acquireStep R s now).1.last ≤ now ∧
    ((if (acquireStep R s now).2 = true ∧ T ≤ now ∧ now ≤ T + 999
        then (1 : ℚ) else 0) +
      spendQ R T (acquireStep R s now).1 ≤ spendQ R T s) := by
  obtain ⟨q, l⟩ := s
  simp only at hmono htok hneg
  have hcast : (l : ℚ) ≤ (now : ℚ) := by exact_mod_cast hmono
  by_cases hadd : 0 < ⌊(((now : ℚ) - (l : ℚ)) / 1000) * R⌋
  · -- refill: at least one whole token accrued, so the clock resets and
    -- (the refilled count being positive) a token is granted
    have hone : (1 : ℚ) ≤ ((⌊(((now : ℚ) - (l : ℚ)) / 1000) * R⌋ : ℤ) : ℚ) := by
      exact_mod_cast hadd
    have hfle : ((⌊(((now : ℚ) - (l : ℚ)) / 1000) * R⌋ : ℤ) : ℚ) ≤
        (((now : ℚ) - (l : ℚ)) / 1000) * R := Int.floor_le _
    have hdiveq : (((now : ℚ) - (l : ℚ)) / 1000) * R =
        ((now : ℚ) - (l : ℚ)) * R / 1000 := by ring
    have h1000 : (1000 : ℚ) ≤ ((now : ℚ) - (l : ℚ)) * R := by
      have hx : (1 : ℚ) ≤ (((now : ℚ) - (l : ℚ)) / 1000) * R :=
        le_trans hone hfle
      rw [hdiveq] at hx
      linarith
    have hm0 : 0 < min R (q + ((⌊(((now : ℚ) - (l : ℚ)) / 1000) * R⌋ : ℤ) : ℚ)) :=
      lt_min hR (by linarith)
    have hmR : min R (q + ((⌊(((now : ℚ) - (l : ℚ)) / 1000) * R⌋ : ℤ) : ℚ)) ≤ R :=
      min_le_left _ _
    have hmq : min R (q + ((⌊(((now : ℚ) - (l : ℚ)) / 1000) * R⌋ : ℤ) : ℚ)) ≤
        q + ((now : ℚ) - (l : ℚ)) * R / 1000 := by
      have h := min_le_right R
        (q + ((⌊(((now : ℚ) - (l : ℚ)) / 1000) * R⌋ : ℤ) : ℚ))
      have hx : ((⌊(((now : ℚ) - (l : ℚ)) / 1000) * R⌋ : ℤ) : ℚ) ≤
          ((now : ℚ) - (l : ℚ)) * R / 1000 := by
        rw [← hdiveq]
        exact hfle
      linarith
    simp only [acquireStep, if_pos hadd, if_pos hm0]
    refine ⟨by linarith, by linarith, le_refl now, ?_⟩
    by_cases hend : T + 999 < now
    · -- the granted poll lands past the window
      rw [spendQ_of_gt hend,
        if_neg (show ¬(True ∧ T ≤ now ∧ now ≤ T + 999) from
          fun hh => absurd hh.2.2 (by omega))]
      have h0 := spendQ_nonneg R T ⟨q, l⟩ hR hneg
      simp only at h0
      linarith
    · by_cases hbT : now < T
      · -- refill and grant strictly before the window opens
        rw [if_neg (show ¬(True ∧ T ≤ now ∧ now ≤ T + 999) from
          fun hh => absurd hh.2.1 (by omega))]
        have hTq : (now : ℚ) ≤ (T : ℚ) := by
          exact_mod_cast Nat.le_of_lt hbT
        have hstaleL : (1000 : ℚ) ≤ ((T : ℚ) - (l : ℚ)) * R := by
          have hm2 : ((now : ℚ) - (l : ℚ)) * R ≤ ((T : ℚ) - (l : ℚ)) * R :=
            mul_le_mul_of_nonneg_right (by linarith) (le_of_lt hR)
          linarith
        rw [spendQ_of_stale (show ¬ T + 999 < l by omega)
          (show l < T by omega) hstaleL]
        by_cases hns : (1000 : ℚ) ≤ ((T : ℚ) - (now : ℚ)) * R
        · rw [spendQ_of_stale (show ¬ T + 999 < now by omega) hbT hns]
          linarith
        · rw [spendQ_of_fresh (show ¬ T + 999 < now by omega) hbT hns]
          have hnsq : ((T : ℚ) - (now : ℚ)) * R < 1000 := not_le.mp hns
          have hexp : (999 + ((T : ℚ) - (now : ℚ))) * R =
              999 * R + ((T : ℚ) - (now : ℚ)) * R := by ring
          linarith
      · -- the granted poll is inside the window
        have hTnow : (T : ℚ) ≤ (now : ℚ) := by
          exact_mod_cast Nat.le_of_not_lt hbT
        have hnowE : (now : ℚ) ≤ (T : ℚ) + 999 := by
          have h := Nat.le_of_not_lt hend
          calc (now : ℚ) ≤ ((T + 999 : ℕ) : ℚ) := by exact_mod_cast h
          _ = (T : ℚ) + 999 := by push_cast; ring
        rw [if_pos (show True ∧ T ≤ now ∧ now ≤ T + 999 from
          ⟨trivial, by omega, by omega⟩)]
        rw [spendQ_of_window (show ¬ T + 999 < now by omega)
          (show ¬ now < T by omega)]
        by_cases hsl : T + 999 < l
        · omega
        · by_cases hslT : l < T
          · by_cases hlold : (1000 : ℚ) ≤ ((T : ℚ) - (l : ℚ)) * R
            · rw [spendQ_of_stale hsl hslT hlold]
              have hspan : (T : ℚ) + 999 - (now : ℚ) ≤ 999 := by linarith
              have hWn : ((T : ℚ) + 999 - (now : ℚ)) * R ≤ 999 * R :=
                mul_le_mul_of_nonneg_right hspan (le_of_lt hR)
              linarith
            · rw [spendQ_of_fresh hsl hslT hlold]
              have hiden : (999 + ((T : ℚ) - (l : ℚ))) * R =
                  ((now : ℚ) - (l : ℚ)) * R +
                    ((T : ℚ) + 999 - (now : ℚ)) * R := by ring
              linarith
          · rw [spendQ_of_window hsl hslT]
            have hiden : ((T : ℚ) + 999 - (l : ℚ)) * R =
                ((now : ℚ) - (l : ℚ)) * R +
                  ((T : ℚ) + 999 - (now : ℚ)) * R := by ring
            linarith
  · -- no refill this poll
    have hF : ⌊(((now : ℚ) - (l : ℚ)) / 1000) * R⌋ < 1 := by omega
    have hlt1 : (((now : ℚ) - (l : ℚ)) / 1000) * R < 1 := by
      have h := Int.floor_lt.mp hF
      simpa using h
    have hqlt : ((now : ℚ) - (l : ℚ)) * R < 1000 := by
      have hdiveq : (((now : ℚ) - (l : ℚ)) / 1000) * R =
          ((now : ℚ) - (l : ℚ)) * R / 1000 := by ring
      rw [hdiveq] at hlt1
      linarith
    by_cases hg : 0 < q
    · simp only [acquireStep, if_neg hadd, if_pos hg]
      refine ⟨by linarith, by linarith, hmono, ?_⟩
      by_cases hsl : T + 999 < l
      · rw [spendQ_of_gt hsl, spendQ_of_gt hsl,
          if_neg (show ¬(True ∧ T ≤ now ∧ now ≤ T + 999) from
            fun hh => absurd hh.2.2 (by omega))]
        linarith
      · by_cases hslT : l < T
        · by_cases hlold : (1000 : ℚ) ≤ ((T : ℚ) - (l : ℚ)) * R
          · rw [spendQ_of_stale hsl hslT hlold,
              spendQ_of_stale hsl hslT hlold]
            have hflag : ¬(True ∧ T ≤ now ∧ now ≤ T + 999) := by
              rintro ⟨-, hTn, -⟩
              have hc : (T : ℚ) ≤ (now : ℚ) := by exact_mod_cast hTn
              have hm2 : ((T : ℚ) - (l : ℚ)) * R ≤
                  ((now : ℚ) - (l : ℚ)) * R :=
                mul_le_mul_of_nonneg_right (by linarith) (le_of_lt hR)
              linarith
            rw [if_neg hflag]
            linarith
          · rw [spendQ_of_fresh hsl hslT hlold,
              spendQ_of_fresh hsl hslT hlold]
            split_ifs with hw
            · linarith
            · linarith
        · rw [spendQ_of_window hsl hslT, spendQ_of_window hsl hslT]
          split_ifs with hw
          · linarith
          · linarith
    · simp only [acquireStep, if_neg hadd, if_neg hg]
      refine ⟨htok, hneg, hmono, ?_⟩
      rw [if_neg (show ¬(false = true ∧ T ≤ now ∧ now ≤ T + 999) from
        fun hh => by simp at hh)]
      linarith

lemma grantsInWindow_cons (T : Nat) (e : Nat × Bool) (out : List (Nat × Bool)) :
    grantsInWindow T (e :: out) =
      (if e.2 = true ∧ T ≤ e.1 ∧ e.1 ≤ T + 999 then 1 else 0) +
        grantsInWindow T out := by
  simp only [grantsInWindow, List.filter_cons]
  by_cases h : (e.2 && decide (T ≤ e.1) && decide (e.1 ≤ T + 999)) = true
  · rw [if_pos h, List.length_cons,
      if_pos (by simpa [Bool.and_eq_true, decide_eq_true_eq, and_assoc]
        using h)]
    omega
  · rw [if_neg h,
      if_neg (by simpa [Bool.and_eq_true, decide_eq_true_eq, and_assoc]
        using h)]
    omega

lemma acquireRun_spendQ_bound (R : ℚ) (T : Nat) (hR : 0 < R) :
    ∀ (ts : List Nat) (s : RLState), s.tokens ≤ R → -1 < s.tokens →
      List.Chain' (· ≤ ·) (s.last :: ts) →
      (grantsInWindow T (acquireRun R s ts) : ℚ) ≤ spendQ R T s := by
  intro ts
  induction ts with
  | nil =>
      intro s _ hneg _
      simpa [acquireRun, grantsInWindow] using spendQ_nonneg R T s hR hneg
  | cons now rest ih =>
      intro s htok hneg hchain
      have hmono : s.last ≤ now := (List.chain'_cons.mp hchain).1
      obtain ⟨h1, h2, h3, h4⟩ := spendQ_step R T hR s now hmono htok hneg
      have hchain2 : List.Chain' (· ≤ ·)
          ((acquireStep R s now).1.last :: rest) := by
        rcases rest with _ | ⟨r, rs⟩
        · simp
        · have hc := (List.chain'_cons.mp hchain).2
          have hnr := (List.chain'_cons.mp hc).1
          exact List.chain'_cons.mpr ⟨le_trans h3 hnr,
            (List.chain'_cons.mp hc).2⟩
      have hih := ih (acquireStep R s now).1 h1 h2 hchain2
      simp only [acquireRun, grantsInWindow_cons]
      push_cast
      linarith

/-- C4 (amended): for every positive (rational) configured rate `maxRPS`
— the repository itself configures the fractional rate 1.5 — and every
state within bucket capacity whose token count is above the −1 the grant
rule maintains (the constructor starts at a full `maxRPS`), over any
chronological schedule of `_acquireToken` polls the limiter grants fewer
than `2 * maxRPS + 2` sends within any rolling one-second window (burst
capacity, continuous refill, and the sub-one-token overdraft); the
claimed bound of `maxRPS` alone is violated, per the counterexample. -/
theorem rate_limiter_burst_bound (R : ℚ) (T : Nat) (s0 : RLState)
    (ts : List Nat) (hR : 0 < R) (htok : s0.tokens ≤ R)
    (hneg : -1 < s0.tokens) (hchain : List.Chain' (· ≤ ·) (s0.last :: ts)) :
    (grantsInWindow T (acquireRun R s0 ts) : ℚ) < 2 * R + 2 :=
  lt_of_le_of_lt (acquireRun_spendQ_bound R T hR ts s0 htok hneg hchain)
    (spendQ_lt R T s0 hR htok)

/-- Witness for C4 (amended): the counterexample schedule itself (2
grants in the window [0, 999] at `maxRPS = 1.5`) stays below
`2 * 1.5 + 2 = 5`. -/
theorem rate_limiter_burst_bound_witness :
    (grantsInWindow 0
      (acquireRun (3 / 2 : ℚ) { tokens := 3 / 2, last := 0 } [0, 0]) : ℚ) <
      2 * (3 / 2) + 2 :=
  rate_limiter_burst_bound (3 / 2) 0 { tokens := 3 / 2, last := 0 } [0, 0]
    (by norm_num)
    (le_refl ((3 : ℚ) / 2))
    (show (-1 : ℚ) < 3 / 2 by norm_num)
    (by simp [List.chain'_cons])

end Omcb
